import Mathlib

/-!
Verification of the WAL (Write-Ahead Log) binary parser of the
sqlite-gui-analyzer repository (src/wal_parser.py), as a shallow embedding.

Modelling conventions:
* Python `bytes` objects and memory-mapped files are `List Nat`, one entry
  per byte (entries are below 256 in every real file; definitions mirror the
  source and never assume it unless the source does).
* Python `str` values that carry byte-level data (record TEXT values,
  search terms, display strings placed in row dictionaries) are also
  `List Nat` (their UTF-8 bytes), named `PyStr`; identifier-like strings
  (table names, column names, categories, search-mode names) are Lean
  `String`.
* Python integers are `Nat`/`Int` (arbitrary precision, as in Python).
* Python exceptions are `Except String`; a try/except that skips an item
  becomes an `Option` per item.
* IEEE-754 floats never influence control flow in the parser; a decoded
  float value keeps its raw 8 bytes (`Value.real`), and the two
  presentation-only float/BLOB display strings are abstract markers.
-/

namespace WalParser

/-- Python byte-string (str or bytes content), one Nat per byte. -/
abbrev PyStr := List Nat

/-- UTF-8 bytes of an ASCII string literal. -/
def asBytes (s : String) : PyStr := s.data.map Char.toNat

-- ── constants.py ─────────────────────────────────────────────────────────

def WAL_MAGIC_BE : Nat := 0x377f0682
def WAL_MAGIC_LE : Nat := 0x377f0683
def WAL_HEADER_SIZE : Nat := 32
def WAL_FRAME_HEADER_SIZE : Nat := 24

/-- PAGE_TYPES dict from constants.py: page-type byte to label. -/
def PAGE_TYPES (pt : Nat) : Option String :=
  if pt = 0x02 then some "Index Interior"
  else if pt = 0x05 then some "Table Interior"
  else if pt = 0x0A then some "Index Leaf"
  else if pt = 0x0D then some "Table Leaf"
  else if pt = 0x00 then some "Overflow / Free"
  else none

-- ── varint (wal_parser._read_varint) ─────────────────────────────────────

/-- Loop body of _read_varint.  The source iterates i = 0..8; here the fuel
argument counts remaining iterations (fuel = 9 - i), so the 9th byte
(i = 8, all 8 bits payload) is the fuel-1 case.  The fuel-0 case is the
unreachable fall-through return after the loop. -/
def readVarintAux (data : List Nat) : Nat → Nat → Nat → Except String (Nat × Nat)
  | offset, result, 0 => .ok (result, offset)
  | offset, result, n + 1 =>
    if offset < data.length then
      let b := data.getD offset 0
      if n = 0 then
        .ok ((result <<< 8) ||| b, offset + 1)
      else
        let result2 := (result <<< 7) ||| (b &&& 127)
        if b < 128 then .ok (result2, offset + 1)
        else readVarintAux data (offset + 1) result2 n
    else .error "Truncated varint"

/-- wal_parser._read_varint: read a SQLite varint (1-9 bytes, MSB
continuation bit); raises (error) on truncated data. -/
def read_varint (data : List Nat) (offset : Nat) : Except String (Nat × Nat) :=
  readVarintAux data offset 0 9

-- ── serial types (wal_parser._serial_type_size) ──────────────────────────

/-- wal_parser._serial_type_size: byte length of a value with the given
serial type code. -/
def serial_type_size (st : Nat) : Nat :=
  if st = 0 then 0
  else if st = 1 then 1
  else if st = 2 then 2
  else if st = 3 then 3
  else if st = 4 then 4
  else if st = 5 then 6
  else if st = 6 then 8
  else if st = 7 then 8
  else if st = 8 then 0
  else if st = 9 then 0
  else if 12 ≤ st ∧ st % 2 = 0 then (st - 12) / 2
  else if 13 ≤ st ∧ st % 2 = 1 then (st - 13) / 2
  else 0

-- ── decoded values (wal_parser._read_serial_value) ───────────────────────

/-- A decoded record value.  `real` keeps the 8 raw big-endian IEEE-754
bytes undecoded (no claim depends on float arithmetic); `text` keeps the
raw UTF-8 bytes (Python decodes with errors="replace", which is the
identity on the byte content for the comparisons the parser performs). -/
inductive Value where
  | null
  | intv (i : Int)
  | real (bytes : PyStr)
  | blob (bytes : PyStr)
  | text (bytes : PyStr)
  deriving Repr, DecidableEq, Inhabited

/-- Big-endian unsigned integer of a byte string (int.from_bytes big). -/
def natFromBytesBE (bs : List Nat) : Nat := bs.foldl (fun acc b => acc * 256 + b) 0

/-- Big-endian signed integer (int.from_bytes big signed=True). -/
def intFromBytesBE (bs : List Nat) : Int :=
  let u := natFromBytesBE bs
  if bs ≠ [] ∧ 128 ≤ bs.headD 0 then (u : Int) - ((2 ^ (8 * bs.length) : Nat) : Int) else (u : Int)

/-- wal_parser._read_serial_value: decode one value at `offset` given its
serial type; raises (error) when the value runs past the buffer. -/
def read_serial_value (data : List Nat) (offset : Nat) (st : Nat) :
    Except String (Value × Nat) :=
  if st = 0 then .ok (.null, offset)
  else if st = 8 then .ok (.intv 0, offset)
  else if st = 9 then .ok (.intv 1, offset)
  else
    let sz := serial_type_size st
    if data.length < offset + sz then .error "Truncated value"
    else
      let chunk := (data.drop offset).take sz
      if st = 1 ∨ st = 2 ∨ st = 3 ∨ st = 4 ∨ st = 5 ∨ st = 6 then
        .ok (.intv (intFromBytesBE chunk), offset + sz)
      else if st = 7 then .ok (.real chunk, offset + sz)
      else if 12 ≤ st ∧ st % 2 = 0 then .ok (.blob chunk, offset + sz)
      else if 13 ≤ st ∧ st % 2 = 1 then .ok (.text chunk, offset + sz)
      else .ok (.null, offset + sz)

-- ── records (wal_parser._parse_record) ───────────────────────────────────

theorem readVarintAux_progress (data : List Nat) :
    ∀ n offset result v off', 1 ≤ n → readVarintAux data offset result n = .ok (v, off') →
      offset < off' := by
  intro n
  induction n with
  | zero => omega
  | succ n ih =>
    intro offset result v off' _ h
    simp only [readVarintAux] at h
    split at h
    · split at h
      · simp at h; omega
      · split at h
        · simp at h; omega
        · rename_i hn _
          have := ih (offset + 1) _ v off' (by omega) h
          omega
    · simp at h

theorem read_varint_progress (data : List Nat) (offset v off' : Nat)
    (h : read_varint data offset = .ok (v, off')) : offset < off' :=
  readVarintAux_progress data 9 offset 0 v off' (by omega) h

/-- The serial-type loop of _parse_record, with an explicit iteration
budget.  The loop runs while offset is below header_end and read_varint
advances the offset by at least one byte per iteration, so a budget of
header_end - offset can never be exhausted before the loop condition
fails; readSerialTypesAux_fuel_irrelevant proves the budget is
semantically invisible.  (The budget keeps the recursion structural so
that concrete runs reduce inside the kernel.) -/
def readSerialTypesAux (data : List Nat) (header_end : Nat) :
    Nat → Nat → Except String (List Nat)
  | _, 0 => .ok []
  | offset, fuel + 1 =>
    if offset < header_end then
      match read_varint data offset with
      | .error e => .error e
      | .ok (st, offset2) =>
        match readSerialTypesAux data header_end offset2 fuel with
        | .error e => .error e
        | .ok rest => .ok (st :: rest)
    else .ok []

/-- The serial-type loop of _parse_record: read serial-type varints while
offset is below header_end. -/
def readSerialTypes (data : List Nat) (header_end : Nat) (offset : Nat) :
    Except String (List Nat) :=
  readSerialTypesAux data header_end offset (header_end - offset)

/-- The iteration budget of readSerialTypesAux does not influence the
result as long as it covers header_end - offset, the worst-case number of
loop iterations: the encoding agrees with the source's unbounded while
loop. -/
theorem readSerialTypesAux_fuel_irrelevant (data : List Nat) (header_end : Nat) :
    ∀ fuel fuel' offset, header_end - offset ≤ fuel → header_end - offset ≤ fuel' →
      readSerialTypesAux data header_end offset fuel =
        readSerialTypesAux data header_end offset fuel' := by
  intro fuel
  induction fuel with
  | zero =>
    intro fuel' offset h h'
    have hoff : ¬ offset < header_end := by omega
    cases fuel' with
    | zero => rfl
    | succ f' => simp [readSerialTypesAux, hoff]
  | succ fuel ih =>
    intro fuel' offset h h'
    by_cases hoff : offset < header_end
    · cases fuel' with
      | zero => omega
      | succ f' =>
        simp only [readSerialTypesAux, if_pos hoff]
        cases hv : read_varint data offset with
        | error e => rfl
        | ok p =>
          obtain ⟨st, offset2⟩ := p
          have hprog := read_varint_progress data offset st offset2 hv
          dsimp only
          rw [ih f' offset2 (by omega) (by omega)]
    · cases fuel' with
      | zero => simp [readSerialTypesAux, hoff]
      | succ f' => simp [readSerialTypesAux, hoff]

/-- The value loop of _parse_record: decode one value per serial type. -/
def readValues (data : List Nat) : Nat → List Nat → Except String (List Value)
  | _, [] => .ok []
  | offset, st :: rest =>
    match read_serial_value data offset st with
    | .error e => .error e
    | .ok (v, offset2) =>
      match readValues data offset2 rest with
      | .error e => .error e
      | .ok vs => .ok (v :: vs)

/-- wal_parser._parse_record: header-length varint, serial-type varints up
to the declared header end, then the values (read starting at header_end).
Raises (error) on truncation, exactly as the source does. -/
def parse_record (data : List Nat) (offset : Nat) : Except String (List Value) :=
  let start := offset
  match read_varint data offset with
  | .error e => .error e
  | .ok (header_len, offset1) =>
    let header_end := start + header_len
    match readSerialTypes data header_end offset1 with
    | .error e => .error e
    | .ok serial_types => readValues data header_end serial_types

-- ── varint characterization (for C3) ─────────────────────────────────────

/-- Accumulating 7-bit fold: each byte contributes its low 7 bits. -/
def fold7 (acc : Nat) (bs : List Nat) : Nat :=
  bs.foldl (fun a b => (a <<< 7) ||| (b &&& 127)) acc

theorem fold7_nil (acc : Nat) : fold7 acc [] = acc := rfl

theorem fold7_cons (acc b : Nat) (bs : List Nat) :
    fold7 acc (b :: bs) = fold7 ((acc <<< 7) ||| (b &&& 127)) bs := rfl

theorem drop_take_succ (data : List Nat) (offset k : Nat) (h : offset < data.length) :
    (data.drop offset).take (k + 1) = data.getD offset 0 :: ((data.drop (offset + 1)).take k) := by
  rw [List.drop_eq_getElem_cons h, List.take_succ_cons, List.getD_eq_getElem data 0 h]

theorem readVarintAux_error_iff (data : List Nat) :
    ∀ n offset result, 1 ≤ n →
      (readVarintAux data offset result n = .error "Truncated varint" ↔
        data.length < offset + n ∧ ∀ j, offset ≤ j → j < data.length → 128 ≤ data.getD j 0) := by
  intro n
  induction n with
  | zero => omega
  | succ n ih =>
    intro offset result _
    simp only [readVarintAux]
    split
    case isTrue hlt =>
      split
      case isTrue hn0 =>
        simp only [reduceCtorEq, false_iff, not_and, not_forall]
        intro hlen
        omega
      case isFalse hn0 =>
        split
        case isTrue hb =>
          simp only [reduceCtorEq, false_iff, not_and, not_forall]
          intro _
          refine ⟨offset, by omega, by omega, by omega⟩
        case isFalse hb =>
          rw [ih (offset + 1) _ (by omega)]
          constructor
          · rintro ⟨h1, h2⟩
            refine ⟨by omega, fun j hj1 hj2 => ?_⟩
            rcases Nat.eq_or_lt_of_le hj1 with heq | hlt'
            · subst heq; omega
            · exact h2 j (by omega) hj2
          · rintro ⟨h1, h2⟩
            exact ⟨by omega, fun j hj1 hj2 => h2 j (by omega) hj2⟩
    case isFalse hge =>
      simp only [true_iff]
      exact ⟨by omega, fun j hj1 hj2 => by omega⟩

theorem readVarintAux_ok (data : List Nat) :
    ∀ n offset result v off', 1 ≤ n →
      readVarintAux data offset result n = .ok (v, off') →
      ∃ k, 1 ≤ k ∧ k ≤ n ∧ off' = offset + k ∧ offset + k ≤ data.length ∧
        (∀ j, offset ≤ j → j + 1 < offset + k → 128 ≤ data.getD j 0) ∧
        (k < n → data.getD (offset + k - 1) 0 < 128 ∧
          v = fold7 result ((data.drop offset).take k)) ∧
        (k = n → v = ((fold7 result ((data.drop offset).take (k - 1))) <<< 8) |||
          data.getD (offset + k - 1) 0) := by
  intro n
  induction n with
  | zero => omega
  | succ n ih =>
    intro offset result v off' _ h
    simp only [readVarintAux] at h
    split at h
    case isTrue hlt =>
      split at h
      case isTrue hn0 =>
        subst hn0
        simp only [Except.ok.injEq, Prod.mk.injEq] at h
        refine ⟨1, by omega, by omega, by omega, by omega, fun j hj1 hj2 => by omega,
          fun hk => by omega, fun _ => ?_⟩
        simp only [Nat.sub_self, List.take_zero, fold7_nil, Nat.add_sub_cancel]
        exact h.1.symm
      case isFalse hn0 =>
        split at h
        case isTrue hb =>
          simp only [Except.ok.injEq, Prod.mk.injEq] at h
          refine ⟨1, by omega, by omega, by omega, by omega, fun j hj1 hj2 => by omega,
            fun _ => ⟨by simpa using hb, ?_⟩, fun hk => by omega⟩
          rw [drop_take_succ data offset 0 hlt]
          simp only [List.take_zero, fold7_cons, fold7_nil]
          exact h.1.symm
        case isFalse hb =>
          obtain ⟨k', hk1, hk2, hoff, hbound, hbytes, hlt', heq'⟩ :=
            ih (offset + 1) _ v off' (by omega) h
          refine ⟨k' + 1, by omega, by omega, by omega, by omega, ?_, ?_, ?_⟩
          · intro j hj1 hj2
            rcases Nat.eq_or_lt_of_le hj1 with hje | hjl
            · subst hje; omega
            · exact hbytes j (by omega) (by omega)
          · intro hklt
            obtain ⟨hlast, hv⟩ := hlt' (by omega)
            refine ⟨by simpa [Nat.add_sub_cancel] using hlast, ?_⟩
            rw [drop_take_succ data offset k' hlt, fold7_cons]
            exact hv
          · intro hke
            have hkn : k' = n := by omega
            have hv := heq' hkn
            have hkpos : k' - 1 + 1 = k' := by omega
            rw [hv]
            have : (data.drop offset).take (k' + 1 - 1) =
                data.getD offset 0 :: ((data.drop (offset + 1)).take (k' - 1)) := by
              rw [Nat.add_sub_cancel, ← hkpos, drop_take_succ data offset (k' - 1) hlt, hkpos]
            rw [this, fold7_cons]
            congr 2
            omega
    case isFalse hge =>
      simp at h

/-- C3: read_varint reads at most 9 bytes; the first up-to-8 bytes each
contribute their low 7 bits (a byte below 0x80 terminates), a 9th byte
contributes all 8 bits; it errors exactly when the buffer ends before a
terminating byte is found within 9 bytes, and otherwise returns the decoded
value together with the offset just past the consumed bytes. -/
theorem read_varint_spec (data : List Nat) (offset : Nat) :
    (read_varint data offset = .error "Truncated varint" ↔
      data.length < offset + 9 ∧ ∀ j, offset ≤ j → j < data.length → 128 ≤ data.getD j 0)
    ∧ ∀ v off', read_varint data offset = .ok (v, off') →
        offset < off' ∧ off' ≤ offset + 9 ∧ off' ≤ data.length ∧
        (∀ j, offset ≤ j → j + 1 < off' → 128 ≤ data.getD j 0) ∧
        (off' < offset + 9 →
          data.getD (off' - 1) 0 < 128 ∧
          v = fold7 0 ((data.drop offset).take (off' - offset))) ∧
        (off' = offset + 9 →
          v = ((fold7 0 ((data.drop offset).take 8)) <<< 8) ||| data.getD (off' - 1) 0) := by
  constructor
  · exact readVarintAux_error_iff data 9 offset 0 (by omega)
  · intro v off' h
    obtain ⟨k, hk1, hk2, hoff, hbound, hbytes, hlt, heq⟩ :=
      readVarintAux_ok data 9 offset 0 v off' (by omega) h
    subst hoff
    refine ⟨by omega, by omega, by omega, hbytes, ?_, ?_⟩
    · intro hklt
      obtain ⟨h1, h2⟩ := hlt (by omega)
      exact ⟨by simpa using h1, by simpa [Nat.add_sub_cancel_left] using h2⟩
    · intro hke
      have hk9 : k = 9 := by omega
      have := heq hk9
      simpa [hk9] using this

/-- Witness for read_varint_spec: the two-byte varint 0x85 0x22 decodes to
674 and consumes exactly two bytes. -/
theorem read_varint_spec_witness :
    0 < 2 ∧ 2 ≤ 0 + 9 ∧ 2 ≤ [(133 : Nat), 34].length := by
  have h := (read_varint_spec [133, 34] 0).2 674 2 (by rfl)
  exact ⟨h.1, h.2.1, h.2.2.1⟩

-- ── serial-type size table (C4) ──────────────────────────────────────────

theorem serial_type_size_ge12 (t : Nat) (h : 12 ≤ t) :
    serial_type_size t = (t - 12) / 2 := by
  have e0 : ¬ (t = 0) := by omega
  have e1 : ¬ (t = 1) := by omega
  have e2 : ¬ (t = 2) := by omega
  have e3 : ¬ (t = 3) := by omega
  have e4 : ¬ (t = 4) := by omega
  have e5 : ¬ (t = 5) := by omega
  have e6 : ¬ (t = 6) := by omega
  have e7 : ¬ (t = 7) := by omega
  have e8 : ¬ (t = 8) := by omega
  have e9 : ¬ (t = 9) := by omega
  rcases Nat.mod_two_eq_zero_or_one t with hm | hm
  · simp [serial_type_size, e0, e1, e2, e3, e4, e5, e6, e7, e8, e9, h, hm]
  · have h13 : 13 ≤ t := by omega
    simp [serial_type_size, e0, e1, e2, e3, e4, e5, e6, e7, e8, e9, h, hm, h13]
    omega

/-- C4: serial_type_size returns 0,1,2,3,4,6,8,8,0,0 for types 0-9, the
even/odd BLOB/TEXT formulas for types at least 12, and is monotone
(non-decreasing) on types at least 12. -/
theorem serial_type_size_spec :
    (serial_type_size 0 = 0 ∧ serial_type_size 1 = 1 ∧ serial_type_size 2 = 2 ∧
     serial_type_size 3 = 3 ∧ serial_type_size 4 = 4 ∧ serial_type_size 5 = 6 ∧
     serial_type_size 6 = 8 ∧ serial_type_size 7 = 8 ∧ serial_type_size 8 = 0 ∧
     serial_type_size 9 = 0)
    ∧ (∀ t, 12 ≤ t → t % 2 = 0 → serial_type_size t = (t - 12) / 2)
    ∧ (∀ t, 13 ≤ t → t % 2 = 1 → serial_type_size t = (t - 13) / 2)
    ∧ (∀ s t, 12 ≤ s → s ≤ t → serial_type_size s ≤ serial_type_size t) := by
  refine ⟨by decide, ?_, ?_, ?_⟩
  · intro t h _
    exact serial_type_size_ge12 t h
  · intro t h hodd
    rw [serial_type_size_ge12 t (by omega)]
    omega
  · intro s t hs hst
    rw [serial_type_size_ge12 s hs, serial_type_size_ge12 t (by omega)]
    omega

/-- Witness for serial_type_size_spec: instantiates the formulas and
monotonicity at types 12-15. -/
theorem serial_type_size_spec_witness :
    serial_type_size 14 = 1 ∧ serial_type_size 15 = 1 ∧
    serial_type_size 12 ≤ serial_type_size 13 := by
  refine ⟨?_, ?_, serial_type_size_spec.2.2.2 12 13 (by decide) (by decide)⟩
  · have := serial_type_size_spec.2.1 14 (by decide) (by decide)
    simpa using this
  · have := serial_type_size_spec.2.2.1 15 (by decide) (by decide)
    simpa using this

-- ── WAL header and frames ────────────────────────────────────────────────

/-- WALHeader namedtuple. -/
structure WALHeader where
  magic : Nat
  version : Nat
  page_size : Nat
  checkpoint_seq : Nat
  salt1 : Nat
  salt2 : Nat
  checksum1 : Nat
  checksum2 : Nat
  deriving Repr, DecidableEq, Inhabited

/-- WALFrame namedtuple. -/
structure WALFrame where
  index : Nat
  offset : Nat
  page_num : Nat
  commit_size : Nat
  salt1 : Nat
  salt2 : Nat
  checksum1 : Nat
  checksum2 : Nat
  category : String
  page_type : String
  page_type_byte : Nat
  deriving Repr, DecidableEq, Inhabited

/-- One 4-byte unsigned integer read by struct.unpack, big- or
little-endian per the `be` flag (slices in the source are always in
bounds where this is used, so getD padding is never observed). -/
def readU32 (be : Bool) (mm : List Nat) (off : Nat) : Nat :=
  let b0 := mm.getD off 0
  let b1 := mm.getD (off + 1) 0
  let b2 := mm.getD (off + 2) 0
  let b3 := mm.getD (off + 3) 0
  if be then ((b0 * 256 + b1) * 256 + b2) * 256 + b3
  else ((b3 * 256 + b2) * 256 + b1) * 256 + b0

/-- Hex digit char, uppercase, as in Python format 02X. -/
def hexDigitChar (n : Nat) : Char :=
  if n = 0 then '0' else if n = 1 then '1' else if n = 2 then '2'
  else if n = 3 then '3' else if n = 4 then '4' else if n = 5 then '5'
  else if n = 6 then '6' else if n = 7 then '7' else if n = 8 then '8'
  else if n = 9 then '9' else if n = 10 then 'A' else if n = 11 then 'B'
  else if n = 12 then 'C' else if n = 13 then 'D' else if n = 14 then 'E'
  else 'F'

/-- Uppercase hex digits of a Nat, most significant first. -/
def hexDigits (n : Nat) : List Char :=
  if h : n < 16 then [hexDigitChar n]
  else hexDigits (n / 16) ++ [hexDigitChar (n % 16)]
termination_by n
decreasing_by omega

/-- Python format string 02X: uppercase hex, zero-padded to width 2. -/
def hexUpper2 (n : Nat) : String :=
  let ds := hexDigits n
  String.mk (if ds.length < 2 then '0' :: ds else ds)

/-- Label lookup PAGE_TYPES.get with the Unknown fallback used in
_identify_page_type and parse_btree_page. -/
def pageTypeLabel (pt : Nat) : String :=
  (PAGE_TYPES pt).getD ("Unknown (0x" ++ hexUpper2 pt ++ ")")

/-- wal_parser._identify_page_type on a (possibly empty) byte slice. -/
def identify_page_type (page_data : List Nat) : Nat × String :=
  if page_data.length < 1 then (0, "Unknown")
  else
    let pt := page_data.headD 0
    (pt, pageTypeLabel pt)

/-- wal_parser._parse_frames classification of one frame (lines 320-326):
committed / uncommitted / old from the salt match and commit_size. -/
def classifyFrame (hdr_salt1 hdr_salt2 f_salt1 f_salt2 commit_size : Nat) : String :=
  if f_salt1 = hdr_salt1 ∧ f_salt2 = hdr_salt2 then
    if 0 < commit_size then "committed" else "uncommitted"
  else "old"

/-- The WALFrame built by one iteration of the _parse_frames loop at the
given offset and index. -/
def frameAt (mm : List Nat) (be : Bool) (hs1 hs2 offset idx : Nat) : WALFrame :=
  let f_salt1 := readU32 be mm (offset + 8)
  let f_salt2 := readU32 be mm (offset + 12)
  let commit_size := readU32 be mm (offset + 4)
  let pd_off := offset + WAL_FRAME_HEADER_SIZE
  let pts := identify_page_type ((mm.drop pd_off).take 1)
  { index := idx, offset := offset,
    page_num := readU32 be mm offset,
    commit_size := commit_size,
    salt1 := f_salt1, salt2 := f_salt2,
    checksum1 := readU32 be mm (offset + 16),
    checksum2 := readU32 be mm (offset + 20),
    category := classifyFrame hs1 hs2 f_salt1 f_salt2 commit_size,
    page_type := pts.2, page_type_byte := pts.1 }

/-- The while loop of wal_parser._parse_frames: consume 24 + page_size
byte regions while a full region remains. -/
def parseFramesLoop (mm : List Nat) (ps : Nat) (be : Bool) (hs1 hs2 : Nat)
    (offset idx : Nat) : List WALFrame :=
  if offset + (WAL_FRAME_HEADER_SIZE + ps) ≤ mm.length then
    frameAt mm be hs1 hs2 offset idx ::
      parseFramesLoop mm ps be hs1 hs2 (offset + (WAL_FRAME_HEADER_SIZE + ps)) (idx + 1)
  else []
termination_by mm.length - offset
decreasing_by simp only [WAL_FRAME_HEADER_SIZE] at *; omega

/-- wal_parser._parse_frames: parse all frame headers starting at byte 32. -/
def parse_frames (mm : List Nat) (ps : Nat) (be : Bool) (hs1 hs2 : Nat) : List WALFrame :=
  parseFramesLoop mm ps be hs1 hs2 WAL_HEADER_SIZE 0

/-- Closed form of the frame loop: one frame per full region. -/
theorem parseFramesLoop_eq (mm : List Nat) (ps : Nat) (be : Bool) (hs1 hs2 : Nat) :
    ∀ fuel offset idx, mm.length - offset ≤ fuel →
      parseFramesLoop mm ps be hs1 hs2 offset idx =
        (List.range ((mm.length - offset) / (WAL_FRAME_HEADER_SIZE + ps))).map
          (fun i => frameAt mm be hs1 hs2 (offset + i * (WAL_FRAME_HEADER_SIZE + ps)) (idx + i)) := by
  intro fuel
  induction fuel with
  | zero =>
    intro offset idx hf
    rw [parseFramesLoop]
    have hlen : mm.length ≤ offset := by omega
    have h24 : 0 < WAL_FRAME_HEADER_SIZE + ps := by simp [WAL_FRAME_HEADER_SIZE]
    rw [if_neg (by omega)]
    have : (mm.length - offset) / (WAL_FRAME_HEADER_SIZE + ps) = 0 :=
      Nat.div_eq_of_lt (by omega)
    simp [this]
  | succ fuel ih =>
    intro offset idx hf
    rw [parseFramesLoop]
    have h24 : 24 ≤ WAL_FRAME_HEADER_SIZE + ps := by simp [WAL_FRAME_HEADER_SIZE]
    by_cases hc : offset + (WAL_FRAME_HEADER_SIZE + ps) ≤ mm.length
    · rw [if_pos hc]
      rw [ih (offset + (WAL_FRAME_HEADER_SIZE + ps)) (idx + 1) (by omega)]
      have hdiv : (mm.length - offset) / (WAL_FRAME_HEADER_SIZE + ps) =
          (mm.length - (offset + (WAL_FRAME_HEADER_SIZE + ps))) / (WAL_FRAME_HEADER_SIZE + ps) + 1 := by
        have hsub : mm.length - offset =
            (mm.length - (offset + (WAL_FRAME_HEADER_SIZE + ps))) + (WAL_FRAME_HEADER_SIZE + ps) := by
          omega
        rw [hsub, Nat.add_div_right _ (by omega)]
      rw [hdiv, List.range_succ_eq_map, List.map_cons, List.map_map]
      congr 1
      · simp
      · apply List.map_congr_left
        intro i _
        simp only [Function.comp_apply, Nat.succ_eq_add_one]
        have e1 : offset + (WAL_FRAME_HEADER_SIZE + ps) + i * (WAL_FRAME_HEADER_SIZE + ps)
            = offset + (i + 1) * (WAL_FRAME_HEADER_SIZE + ps) := by ring
        have e2 : idx + 1 + i = idx + (i + 1) := by omega
        rw [e1, e2]
    · rw [if_neg hc]
      have : (mm.length - offset) / (WAL_FRAME_HEADER_SIZE + ps) = 0 :=
        Nat.div_eq_of_lt (by omega)
      simp [this]

/-- Closed form of parse_frames. -/
theorem parse_frames_eq (mm : List Nat) (ps : Nat) (be : Bool) (hs1 hs2 : Nat) :
    parse_frames mm ps be hs1 hs2 =
      (List.range ((mm.length - WAL_HEADER_SIZE) / (WAL_FRAME_HEADER_SIZE + ps))).map
        (fun i => frameAt mm be hs1 hs2 (WAL_HEADER_SIZE + i * (WAL_FRAME_HEADER_SIZE + ps)) i) := by
  rw [parse_frames, parseFramesLoop_eq mm ps be hs1 hs2 (mm.length) WAL_HEADER_SIZE 0 (by omega)]
  apply List.map_congr_left
  intro i _
  simp

-- ── C1: frame classification ─────────────────────────────────────────────

theorem classifyFrame_cases (hs1 hs2 s1 s2 cs : Nat) :
    (classifyFrame hs1 hs2 s1 s2 cs = "committed" ↔ (s1 = hs1 ∧ s2 = hs2) ∧ 0 < cs) ∧
    (classifyFrame hs1 hs2 s1 s2 cs = "uncommitted" ↔ (s1 = hs1 ∧ s2 = hs2) ∧ cs = 0) ∧
    (classifyFrame hs1 hs2 s1 s2 cs = "old" ↔ ¬(s1 = hs1 ∧ s2 = hs2)) := by
  have hcu : ("committed" : String) ≠ "uncommitted" := by decide
  have hco : ("committed" : String) ≠ "old" := by decide
  have huo : ("uncommitted" : String) ≠ "old" := by decide
  unfold classifyFrame
  split_ifs with h1 h2
  · refine ⟨by simp [h1, h2], ?_, ?_⟩
    · simp only [hcu, false_iff]
      omega
    · simp only [hco, false_iff]
      simpa using h1
  · refine ⟨?_, by simp [h1]; omega, ?_⟩
    · simp only [hcu.symm, false_iff]
      omega
    · simp only [huo, false_iff]
      simpa using h1
  · refine ⟨?_, ?_, by simpa using h1⟩
    · simp only [hco.symm, false_iff]
      intro hc
      exact h1 hc.1
    · simp only [huo.symm, false_iff]
      intro hc
      exact h1 hc.1

theorem frameAt_fields (mm : List Nat) (be : Bool) (hs1 hs2 offset idx : Nat) :
    (frameAt mm be hs1 hs2 offset idx).category =
      classifyFrame hs1 hs2 (frameAt mm be hs1 hs2 offset idx).salt1
        (frameAt mm be hs1 hs2 offset idx).salt2
        (frameAt mm be hs1 hs2 offset idx).commit_size ∧
    (frameAt mm be hs1 hs2 offset idx).offset = offset ∧
    (frameAt mm be hs1 hs2 offset idx).index = idx := by
  simp [frameAt]

/-- C1: every frame parsed from a WAL file is classified committed iff its
salts match the header salts and commit_size is positive, uncommitted iff
the salts match and commit_size is zero, and old iff the salts do not both
match; the three categories are mutually exclusive and exhaustive. -/
theorem frame_category_spec (mm : List Nat) (ps : Nat) (be : Bool) (hs1 hs2 : Nat) :
    ∀ f ∈ parse_frames mm ps be hs1 hs2,
      (f.category = "committed" ↔ (f.salt1 = hs1 ∧ f.salt2 = hs2) ∧ 0 < f.commit_size) ∧
      (f.category = "uncommitted" ↔ (f.salt1 = hs1 ∧ f.salt2 = hs2) ∧ f.commit_size = 0) ∧
      (f.category = "old" ↔ ¬(f.salt1 = hs1 ∧ f.salt2 = hs2)) ∧
      (f.category = "committed" ∨ f.category = "uncommitted" ∨ f.category = "old") := by
  intro f hf
  rw [parse_frames_eq] at hf
  obtain ⟨i, _, hfe⟩ := List.mem_map.1 hf
  have hcat : f.category = classifyFrame hs1 hs2 f.salt1 f.salt2 f.commit_size := by
    rw [← hfe]
    exact (frameAt_fields mm be hs1 hs2 _ i).1
  obtain ⟨h1, h2, h3⟩ := classifyFrame_cases hs1 hs2 f.salt1 f.salt2 f.commit_size
  rw [← hcat] at h1 h2 h3
  refine ⟨h1, h2, h3, ?_⟩
  by_cases hm : f.salt1 = hs1 ∧ f.salt2 = hs2
  · by_cases hcs : 0 < f.commit_size
    · exact Or.inl (h1.2 ⟨hm, hcs⟩)
    · exact Or.inr (Or.inl (h2.2 ⟨hm, by omega⟩))
  · exact Or.inr (Or.inr (h3.2 hm))

/-- Witness for frame_category_spec: a 60-byte file of zeros with page
size 4 parses to one frame whose salts match the zero header salts and
whose commit_size is zero, hence category uncommitted. -/
theorem frame_category_spec_witness :
    (WalParser.frameAt (List.replicate 60 0) true 0 0 32 0).category = "uncommitted" ∧
    ¬ (WalParser.frameAt (List.replicate 60 0) true 0 0 32 0).category = "old" := by
  have h := frame_category_spec (List.replicate 60 0) 4 true 0 0
    (frameAt (List.replicate 60 0) true 0 0 32 0)
    (by rw [parse_frames_eq]; decide)
  refine ⟨h.2.1.2 (by decide), fun hc => ?_⟩
  have h2 := h.2.2.1.1 hc
  revert h2
  decide

-- ── C5: frame layout and truncation ──────────────────────────────────────

theorem getD_take_of_lt (mm : List Nat) (n j : Nat) (h : j < n) :
    (mm.take n).getD j 0 = mm.getD j 0 := by
  simp only [List.getD_eq_getElem?_getD]
  rw [List.getElem?_take_of_lt h]

theorem readU32_take (be : Bool) (mm : List Nat) (off n : Nat) (h : off + 4 ≤ n) :
    readU32 be (mm.take n) off = readU32 be mm off := by
  unfold readU32
  rw [getD_take_of_lt mm n off (by omega), getD_take_of_lt mm n (off + 1) (by omega),
    getD_take_of_lt mm n (off + 2) (by omega), getD_take_of_lt mm n (off + 3) (by omega)]

theorem drop_take_one (mm : List Nat) (pd : Nat) :
    (mm.drop pd).take 1 = if pd < mm.length then [mm.getD pd 0] else [] := by
  by_cases h : pd < mm.length
  · rw [if_pos h, drop_take_succ mm pd 0 h]
    simp
  · rw [if_neg h]
    rw [List.drop_eq_nil_of_le (by omega)]
    simp

theorem frameAt_take (mm : List Nat) (be : Bool) (hs1 hs2 offset idx n ps : Nat)
    (hps : 0 < ps) (hn : n ≤ mm.length)
    (hfit : offset + (WAL_FRAME_HEADER_SIZE + ps) ≤ n) :
    frameAt (mm.take n) be hs1 hs2 offset idx = frameAt mm be hs1 hs2 offset idx := by
  have h24 : WAL_FRAME_HEADER_SIZE = 24 := rfl
  unfold frameAt
  dsimp only
  rw [readU32_take be mm offset n (by omega), readU32_take be mm (offset + 4) n (by omega),
    readU32_take be mm (offset + 8) n (by omega), readU32_take be mm (offset + 12) n (by omega),
    readU32_take be mm (offset + 16) n (by omega), readU32_take be mm (offset + 20) n (by omega)]
  have hslice : ((mm.take n).drop (offset + WAL_FRAME_HEADER_SIZE)).take 1 =
      (mm.drop (offset + WAL_FRAME_HEADER_SIZE)).take 1 := by
    rw [drop_take_one, drop_take_one]
    have hlt : offset + WAL_FRAME_HEADER_SIZE < mm.length := by omega
    have hlt2 : offset + WAL_FRAME_HEADER_SIZE < (mm.take n).length := by
      simp only [List.length_take]
      omega
    rw [if_pos hlt, if_pos hlt2, getD_take_of_lt mm n _ (by omega)]
  rw [hslice]

/-- C5: frame parsing starts at offset 32 and consumes consecutive regions
of exactly 24 + page_size bytes, stopping as soon as fewer remain; parsing
a truncation of the file yields exactly the frames fully contained before
the truncation point (a prefix of the full parse) and never fails. -/
theorem parse_frames_layout (mm : List Nat) (ps : Nat) (be : Bool) (hs1 hs2 n : Nat)
    (hps : 0 < ps) (hn : n ≤ mm.length) :
    (parse_frames mm ps be hs1 hs2).length =
      (mm.length - WAL_HEADER_SIZE) / (WAL_FRAME_HEADER_SIZE + ps) ∧
    (∀ i, ∀ hi : i < (parse_frames mm ps be hs1 hs2).length,
      ((parse_frames mm ps be hs1 hs2).get ⟨i, hi⟩).offset =
        WAL_HEADER_SIZE + i * (WAL_FRAME_HEADER_SIZE + ps) ∧
      ((parse_frames mm ps be hs1 hs2).get ⟨i, hi⟩).index = i) ∧
    parse_frames (mm.take n) ps be hs1 hs2 =
      (parse_frames mm ps be hs1 hs2).take
        ((n - WAL_HEADER_SIZE) / (WAL_FRAME_HEADER_SIZE + ps)) := by
  have h24 : WAL_FRAME_HEADER_SIZE = 24 := rfl
  have h32 : WAL_HEADER_SIZE = 32 := rfl
  refine ⟨?_, ?_, ?_⟩
  · rw [parse_frames_eq]
    simp
  · intro i hi
    have hi2 : i < (mm.length - WAL_HEADER_SIZE) / (WAL_FRAME_HEADER_SIZE + ps) := by
      rw [parse_frames_eq] at hi
      simpa using hi
    have : (parse_frames mm ps be hs1 hs2).get ⟨i, hi⟩ =
        frameAt mm be hs1 hs2 (WAL_HEADER_SIZE + i * (WAL_FRAME_HEADER_SIZE + ps)) i := by
      have := parse_frames_eq mm ps be hs1 hs2
      rw [List.get_eq_getElem]
      rw [List.getElem_of_eq this]
      rw [List.getElem_map, List.getElem_range]
    rw [this]
    exact ⟨(frameAt_fields mm be hs1 hs2 _ i).2.1, (frameAt_fields mm be hs1 hs2 _ i).2.2⟩
  · rw [parse_frames_eq, parse_frames_eq]
    have hlen : (mm.take n).length = n := by
      simp only [List.length_take]
      omega
    rw [hlen]
    rw [← List.map_take, List.take_range]
    have hmin : min ((n - WAL_HEADER_SIZE) / (WAL_FRAME_HEADER_SIZE + ps))
        ((mm.length - WAL_HEADER_SIZE) / (WAL_FRAME_HEADER_SIZE + ps)) =
        (n - WAL_HEADER_SIZE) / (WAL_FRAME_HEADER_SIZE + ps) := by
      have := Nat.div_le_div_right (c := WAL_FRAME_HEADER_SIZE + ps)
        (Nat.sub_le_sub_right hn WAL_HEADER_SIZE)
      omega
    rw [hmin]
    apply List.map_congr_left
    intro i hir
    have hik : i < (n - WAL_HEADER_SIZE) / (WAL_FRAME_HEADER_SIZE + ps) :=
      List.mem_range.1 hir
    have hfit : WAL_HEADER_SIZE + i * (WAL_FRAME_HEADER_SIZE + ps) +
        (WAL_FRAME_HEADER_SIZE + ps) ≤ n := by
      have h1 : i + 1 ≤ (n - WAL_HEADER_SIZE) / (WAL_FRAME_HEADER_SIZE + ps) := hik
      have h2 : (i + 1) * (WAL_FRAME_HEADER_SIZE + ps) ≤ n - WAL_HEADER_SIZE := by
        rw [← Nat.le_div_iff_mul_le (by omega)] at *
        exact h1
      have h3 : (i + 1) * (WAL_FRAME_HEADER_SIZE + ps) =
          i * (WAL_FRAME_HEADER_SIZE + ps) + (WAL_FRAME_HEADER_SIZE + ps) := by ring
      omega
    exact frameAt_take mm be hs1 hs2 _ i n ps hps hn hfit

/-- Witness for parse_frames_layout: a 60-byte zero file with page size 1
holds exactly one 25-byte frame after the 32-byte header, and parsing the
file truncated to 57 bytes keeps that frame. -/
theorem parse_frames_layout_witness :
    (parse_frames (List.replicate 60 0) 1 true 0 0).length =
      ((List.replicate 60 (0 : Nat)).length - WAL_HEADER_SIZE) / (WAL_FRAME_HEADER_SIZE + 1) ∧
    parse_frames ((List.replicate 60 0).take 57) 1 true 0 0 =
      (parse_frames (List.replicate 60 0) 1 true 0 0).take
        ((57 - WAL_HEADER_SIZE) / (WAL_FRAME_HEADER_SIZE + 1)) := by
  have h := parse_frames_layout (List.replicate 60 0) 1 true 0 0 57 (by decide) (by simp)
  exact ⟨h.1, h.2.2⟩

-- ── b-tree page parsing ──────────────────────────────────────────────────

/-- Big-endian 16-bit read (int.from_bytes of a 2-byte slice; always used
in bounds). -/
def readU16BE (bs : List Nat) (off : Nat) : Nat :=
  (bs.getD off 0) * 256 + bs.getD (off + 1) 0

/-- Result dict of WALParser.parse_btree_page. -/
structure BTreePageInfo where
  page_type : String
  page_type_byte : Nat
  cell_count : Nat
  cell_offsets : List Nat
  first_free : Nat
  frag_count : Nat
  right_child : Option Nat
  cell_content_start : Nat
  deriving Repr, DecidableEq, Inhabited

/-- Cell-pointer-array loop of parse_btree_page: reads one 2-byte pointer
per loop index i (rem counts the remaining indices of range(cell_count)),
breaking at the first pointer that runs past the page. -/
def cellPtrLoop (page_data : List Nat) (ptr_start : Nat) : Nat → Nat → List Nat
  | _, 0 => []
  | i, rem + 1 =>
    if page_data.length < ptr_start + i * 2 + 2 then []
    else readU16BE page_data (ptr_start + i * 2) :: cellPtrLoop page_data ptr_start (i + 1) rem

/-- WALParser.parse_btree_page: decode the 8/12-byte b-tree page header
and the cell pointer array; None on short pages or unknown page types. -/
def parse_btree_page (page_data : List Nat) : Option BTreePageInfo :=
  if page_data.length < 8 then none
  else
    let pt := page_data.headD 0
    if (PAGE_TYPES pt).isNone ∨ pt = 0 then none
    else
      let is_interior := pt = 0x02 ∨ pt = 0x05
      let hdr_size := if is_interior then 12 else 8
      if page_data.length < hdr_size then none
      else
        some {
          page_type := pageTypeLabel pt,
          page_type_byte := pt,
          cell_count := readU16BE page_data 3,
          cell_offsets := cellPtrLoop page_data hdr_size 0 (readU16BE page_data 3),
          first_free := readU16BE page_data 1,
          frag_count := page_data.getD 7 0,
          right_child := if is_interior then some (readU32 true page_data 8) else none,
          cell_content_start := readU16BE page_data 5 }

/-- One recovered cell of a table leaf page. -/
structure Cell where
  rowid : Nat
  values : List Value
  deriving Repr, DecidableEq, Inhabited

/-- The try-block body of the parse_leaf_cells loop for one cell pointer:
none models both the explicit continue branches and a caught exception
(raised by a varint or record decode running past the buffer). -/
def parseCellAt (page_data : List Nat) (cell_offset : Nat) : Option Cell :=
  if page_data.length ≤ cell_offset then none
  else
    match read_varint page_data cell_offset with
    | .error _ => none
    | .ok (payload_len, off1) =>
      match read_varint page_data off1 with
      | .error _ => none
      | .ok (rowid, off2) =>
        let payload_start := off2
        let payload_end := min (payload_start + payload_len) page_data.length
        if payload_end ≤ payload_start then none
        else
          let payload := (page_data.drop payload_start).take (payload_end - payload_start)
          match parse_record payload 0 with
          | .error _ => none
          | .ok values => some { rowid := rowid, values := values }

/-- The cells.append step of the parse_leaf_cells loop: append the cell
when the try-block succeeded, keep the accumulator when it was skipped. -/
def appendCellStep (page_data : List Nat) (acc : List Cell) (co : Nat) : List Cell :=
  match parseCellAt page_data co with
  | some c => acc ++ [c]
  | none => acc

/-- WALParser.parse_leaf_cells: parse all cells of a table-leaf page
(type 0x0D); cells that fail to decode are skipped (appended nothing). -/
def parse_leaf_cells (page_data : List Nat) : List Cell :=
  if page_data.length < 8 then []
  else if page_data.headD 0 ≠ 0x0D then []
  else
    match parse_btree_page page_data with
    | none => []
    | some info => info.cell_offsets.foldl (appendCellStep page_data) []

-- ── C2: truncation behaviour of record parsing ───────────────────────────

theorem parseCellAt_some (page_data : List Nat) (co : Nat) (c : Cell)
    (h : parseCellAt page_data co = some c) :
    ∃ payload, parse_record payload 0 = Except.ok c.values := by
  unfold parseCellAt at h
  split at h
  · exact absurd h (by simp)
  · split at h
    · exact absurd h (by simp)
    · split at h
      · exact absurd h (by simp)
      · dsimp only at h
        split at h
        · exact absurd h (by simp)
        · split at h
          · exact absurd h (by simp)
          · rename_i values hpr
            simp only [Option.some.injEq] at h
            subst h
            exact ⟨_, hpr⟩

theorem foldl_appendCellStep (page_data : List Nat) :
    ∀ (l : List Nat) (acc : List Cell),
      l.foldl (appendCellStep page_data) acc =
        acc ++ l.filterMap (parseCellAt page_data) := by
  intro l
  induction l with
  | nil => simp
  | cons x xs ih =>
    intro acc
    rw [List.foldl_cons, List.filterMap_cons]
    cases hfx : parseCellAt page_data x with
    | none => rw [appendCellStep, hfx, ih]
    | some c => rw [appendCellStep, hfx, ih]; simp

/-- C2 (amended): on a truncated payload _parse_record raises a ValueError
(an error value here) instead of returning a partial list; the graceful
behaviour lives one level up: parse_leaf_cells catches the exception per
cell and skips that cell, so it returns exactly the cells whose records
decoded fully (the filterMap of the per-cell parse over the page's cell
pointer array), and every returned cell comes from a successful
parse_record run. -/
theorem parse_record_error_containment (page_data : List Nat) :
    (∀ info, parse_btree_page page_data = some info → page_data.headD 0 = 0x0D →
      parse_leaf_cells page_data = info.cell_offsets.filterMap (parseCellAt page_data)) ∧
    (∀ c ∈ parse_leaf_cells page_data, ∃ co payload,
      parseCellAt page_data co = some c ∧ parse_record payload 0 = Except.ok c.values) := by
  have hmain : ∀ info, parse_btree_page page_data = some info → page_data.headD 0 = 0x0D →
      parse_leaf_cells page_data = info.cell_offsets.filterMap (parseCellAt page_data) := by
    intro info hinfo hleaf
    have hlen : ¬ page_data.length < 8 := by
      intro hlt
      rw [parse_btree_page, if_pos hlt] at hinfo
      exact absurd hinfo (by simp)
    unfold parse_leaf_cells
    rw [if_neg hlen, if_neg (fun hne => hne hleaf), hinfo]
    dsimp only
    rw [foldl_appendCellStep page_data info.cell_offsets []]
    simp
  refine ⟨hmain, ?_⟩
  intro c hc
  unfold parse_leaf_cells at hc
  split at hc
  · exact absurd hc (by simp)
  · split at hc
    · exact absurd hc (by simp)
    · split at hc
      · exact absurd hc (by simp)
      · rw [foldl_appendCellStep, List.nil_append, List.mem_filterMap] at hc
        obtain ⟨co, _, hco⟩ := hc
        obtain ⟨payload, hpl⟩ := parseCellAt_some page_data co c hco
        exact ⟨co, payload, hco, hpl⟩

/-- C2 counterexample: _parse_record does raise on a truncated buffer (the
empty payload) instead of returning the decodable prefix of values. -/
theorem parse_record_truncation_counterexample :
    parse_record [] 0 = Except.error "Truncated varint" := rfl

/-- A 40-byte table-leaf page with one cell (rowid 7, values NULL and the
text abc) used to instantiate theorems on concrete data. -/
def demoLeafPage : List Nat :=
  [13, 0, 0, 0, 1, 0, 0, 0, 0, 12, 0, 0, 6, 7, 3, 0, 19, 97, 98, 99] ++
    List.replicate 20 0

/-- The b-tree info parse_btree_page returns for demoLeafPage. -/
def demoLeafInfo : BTreePageInfo :=
  { page_type := "Table Leaf", page_type_byte := 13, cell_count := 1,
    cell_offsets := [12], first_free := 0, frag_count := 0,
    right_child := none, cell_content_start := 0 }

/-- Witness for parse_record_error_containment on the concrete demo page. -/
theorem parse_record_error_containment_witness :
    parse_leaf_cells demoLeafPage = demoLeafInfo.cell_offsets.filterMap (parseCellAt demoLeafPage) :=
  (parse_record_error_containment demoLeafPage).1 demoLeafInfo (by decide) (by decide)

-- ── parser state and page access ─────────────────────────────────────────

/-- The WALParser object state after open: the mapped bytes, parsed
header/frames and the externally populated page/column/primary-key maps
(set by the database layer; arbitrary here).  page_map none models a page
number absent from the dict. -/
structure WALParserState where
  mm : List Nat
  header : Option WALHeader
  frames : List WALFrame
  page_size : Nat
  valid : Bool
  file_size : Nat
  big_endian : Bool
  page_map : Nat → Option String
  col_map : String → List String
  pk_col_idx : String → Int

/-- WALParser.get_page_data: bounds-checked page-region slice for a frame
index; empty bytes when the parser is invalid, the index is out of range,
or the region runs past the mapped file. -/
def get_page_data (st : WALParserState) (frame_index : Int) : List Nat :=
  if ¬ st.valid ∨ frame_index < 0 ∨ (st.frames.length : Int) ≤ frame_index then []
  else
    let frame := st.frames.getD frame_index.toNat default
    let start := frame.offset + WAL_FRAME_HEADER_SIZE
    let e := start + st.page_size
    if st.mm.length < e then []
    else (st.mm.drop start).take st.page_size

/-- C6: get_page_data returns empty bytes whenever the parser is invalid or
the index is out of range (negative, past the frame list, or with a page
region running past the mapped file); for an in-range index on a valid
parser it returns exactly the page_size bytes located just after the
frame's 24-byte frame header. -/
theorem get_page_data_spec (st : WALParserState) (frame_index : Int) :
    ((¬ st.valid = true ∨ frame_index < 0 ∨ (st.frames.length : Int) ≤ frame_index ∨
        st.mm.length < (st.frames.getD frame_index.toNat default).offset +
          WAL_FRAME_HEADER_SIZE + st.page_size) →
      get_page_data st frame_index = []) ∧
    (st.valid = true → 0 ≤ frame_index → frame_index < (st.frames.length : Int) →
      (st.frames.getD frame_index.toNat default).offset + WAL_FRAME_HEADER_SIZE +
          st.page_size ≤ st.mm.length →
      (get_page_data st frame_index).length = st.page_size ∧
      ∀ j < st.page_size, (get_page_data st frame_index).getD j 0 =
        st.mm.getD ((st.frames.getD frame_index.toNat default).offset +
          WAL_FRAME_HEADER_SIZE + j) 0) := by
  constructor
  · intro h
    unfold get_page_data
    rcases h with h | h | h | h
    · rw [if_pos]
      left
      simpa using h
    · rw [if_pos (Or.inr (Or.inl h))]
    · rw [if_pos (Or.inr (Or.inr h))]
    · by_cases hv : (¬ st.valid = true ∨ frame_index < 0 ∨ (st.frames.length : Int) ≤ frame_index)
      · rw [if_pos]
        rcases hv with hv | hv | hv
        · exact Or.inl (by simpa using hv)
        · exact Or.inr (Or.inl hv)
        · exact Or.inr (Or.inr hv)
      · rw [if_neg hv]
        dsimp only
        rw [if_pos (by omega)]
  · intro hv h0 hlt hfit
    unfold get_page_data
    rw [if_neg (by simp [hv]; omega)]
    dsimp only
    rw [if_neg (by omega)]
    set frame := st.frames.getD frame_index.toNat default with hframe
    constructor
    · simp only [List.length_take, List.length_drop]
      omega
    · intro j hj
      have hjlen : j < (st.mm.drop (frame.offset + WAL_FRAME_HEADER_SIZE)).length := by
        simp only [List.length_drop]
        omega
      rw [getD_take_of_lt _ st.page_size j hj]
      simp only [List.getD_eq_getElem?_getD]
      rw [List.getElem?_drop]

-- ── Python string helpers (ASCII level) ──────────────────────────────────

/-- Python str.strip / upper / lower / startswith and the in operator are
modelled at the byte level for the ASCII subset the parser compares
against (all its literals are ASCII); bytes outside ASCII pass through
unchanged, as they do in the comparisons the source performs. -/
def isSpaceByte (b : Nat) : Bool :=
  b = 32 || b = 9 || b = 10 || b = 13 || b = 11 || b = 12

def pyStrip (s : PyStr) : PyStr :=
  ((s.dropWhile isSpaceByte).reverse.dropWhile isSpaceByte).reverse

def pyUpperByte (b : Nat) : Nat := if 97 ≤ b ∧ b ≤ 122 then b - 32 else b

def pyLowerByte (b : Nat) : Nat := if 65 ≤ b ∧ b ≤ 90 then b + 32 else b

def pyUpper (s : PyStr) : PyStr := s.map pyUpperByte

def pyLower (s : PyStr) : PyStr := s.map pyLowerByte

/-- str.startswith. -/
def startsWithB (p s : PyStr) : Bool := s.take p.length == p

/-- str.endswith. -/
def endsWithB (p s : PyStr) : Bool := s.drop (s.length - p.length) == p && (p.length ≤ s.length)

/-- The Python in operator on strings: contiguous substring. -/
def containsB (needle hay : PyStr) : Bool :=
  (List.range (hay.length + 1)).any (fun i => (hay.drop i).take needle.length == needle)

-- ── Python dict (insertion ordered) ──────────────────────────────────────

/-- Python k in d. -/
def dictHasKey {α β : Type} [DecidableEq α] : List (α × β) → α → Bool
  | [], _ => false
  | p :: rest, k => p.1 = k || dictHasKey rest k

/-- In-place value replacement for an existing key (d[k] = v when k is
present): every entry with that key gets the new value, order kept. -/
def dictReplace {α β : Type} [DecidableEq α] (k : α) (v : β) : List (α × β) → List (α × β)
  | [] => []
  | p :: rest => (if p.1 = k then (k, v) else p) :: dictReplace k v rest

/-- Python dict assignment d[k] = v: replace in place when the key exists,
else append; preserves insertion order like CPython dicts. -/
def dictInsert {α β : Type} [DecidableEq α] (d : List (α × β)) (k : α) (v : β) :
    List (α × β) :=
  if dictHasKey d k then dictReplace k v d else d ++ [(k, v)]

/-- Python dict lookup d.get(k). -/
def dictGet {α β : Type} [DecidableEq α] : List (α × β) → α → Option β
  | [], _ => none
  | p :: rest, k => if p.1 = k then some p.2 else dictGet rest k

theorem dictGet_dictReplace_same {α β : Type} [DecidableEq α]
    (d : List (α × β)) (k : α) (v : β) (h : dictHasKey d k = true) :
    dictGet (dictReplace k v d) k = some v := by
  induction d with
  | nil => simp [dictHasKey] at h
  | cons p d ih =>
    rw [dictReplace]
    by_cases hp : p.1 = k
    · rw [if_pos hp, dictGet, if_pos rfl]
    · rw [if_neg hp, dictGet, if_neg hp]
      rw [dictHasKey] at h
      simp only [Bool.or_eq_true, decide_eq_true_eq] at h
      exact ih (h.resolve_left hp)

theorem dictGet_append_single {α β : Type} [DecidableEq α]
    (d : List (α × β)) (k : α) (v : β) (h : dictHasKey d k = false) :
    dictGet (d ++ [(k, v)]) k = some v := by
  induction d with
  | nil => simp [dictGet]
  | cons p d ih =>
    rw [dictHasKey] at h
    simp only [Bool.or_eq_false_iff, decide_eq_false_iff_not] at h
    rw [List.cons_append, dictGet, if_neg h.1]
    exact ih h.2

theorem dictGet_dictInsert_same {α β : Type} [DecidableEq α]
    (d : List (α × β)) (k : α) (v : β) :
    dictGet (dictInsert d k v) k = some v := by
  rw [dictInsert]
  by_cases h : dictHasKey d k
  · rw [if_pos h]
    exact dictGet_dictReplace_same d k v h
  · rw [if_neg h]
    exact dictGet_append_single d k v (by simpa using h)

theorem dictGet_dictReplace_other {α β : Type} [DecidableEq α]
    (d : List (α × β)) (k k' : α) (v : β) (hne : k' ≠ k) :
    dictGet (dictReplace k' v d) k = dictGet d k := by
  induction d with
  | nil => rfl
  | cons p d ih =>
    rw [dictReplace]
    by_cases hp : p.1 = k'
    · rw [if_pos hp, dictGet, if_neg hne, dictGet, if_neg (by rw [hp]; exact hne)]
      exact ih
    · rw [if_neg hp, dictGet, dictGet]
      by_cases hpk : p.1 = k
      · rw [if_pos hpk, if_pos hpk]
      · rw [if_neg hpk, if_neg hpk]
        exact ih

theorem dictGet_append_other {α β : Type} [DecidableEq α]
    (d : List (α × β)) (k k' : α) (v : β) (hne : k' ≠ k) :
    dictGet (d ++ [(k', v)]) k = dictGet d k := by
  induction d with
  | nil => simp [dictGet, hne]
  | cons p d ih =>
    rw [List.cons_append, dictGet, dictGet]
    by_cases hpk : p.1 = k
    · rw [if_pos hpk, if_pos hpk]
    · rw [if_neg hpk, if_neg hpk]
      exact ih

theorem dictGet_dictInsert_other {α β : Type} [DecidableEq α]
    (d : List (α × β)) (k k' : α) (v : β) (hne : k' ≠ k) :
    dictGet (dictInsert d k' v) k = dictGet d k := by
  rw [dictInsert]
  by_cases h : dictHasKey d k'
  · rw [if_pos h]
    exact dictGet_dictReplace_other d k k' v hne
  · rw [if_neg h]
    exact dictGet_append_other d k k' v hne

-- ── display strings for row dictionaries ─────────────────────────────────

/-- Python str(n) for a non-negative integer. -/
def pyStrOfNat (n : Nat) : PyStr := asBytes (toString n)

/-- Python str(i) for an integer. -/
def pyStrOfInt (i : Int) : PyStr := asBytes (toString i)

/-- Presentation label for a BLOB column value, built in the source from
utils.fmtb (floating-point byte-size formatting) and utils.blob_type.
Kept abstract: no claim depends on its content, only on which branch
produced the display string. -/
def blobDisplay (bs : PyStr) : PyStr := asBytes "BLOB " ++ pyStrOfNat bs.length

/-- Presentation string of a float column value (Python f-string 6g
formatting of an IEEE-754 double).  Kept abstract over the raw bytes:
no claim depends on its content. -/
def floatDisplay (bs : PyStr) : PyStr := asBytes "float " ++ bs

/-- The non-primary-key display branches shared by search row_values and
recover_all_records values_dict (None, bytes, float, str fall-through). -/
def displayValue : Value → PyStr
  | .null => asBytes "NULL"
  | .blob bs => blobDisplay bs
  | .real bs => floatDisplay bs
  | .intv i => pyStrOfInt i
  | .text bs => bs

/-- Column name for value index vi: the schema name when known, else the
colvi fallback. -/
def colNameAt (col_names : List String) (vi : Nat) : String :=
  if vi < col_names.length then col_names.getD vi "" else "col" ++ toString vi

/-- One assignment of the row-dictionary loop: the INTEGER PRIMARY KEY
substitution branch takes priority, then the display branches. -/
def rowEntry (col_names : List String) (pk_idx : Int) (rowid : Nat)
    (vi : Nat) (v : Value) : String × PyStr :=
  if (vi : Int) = pk_idx ∧ v = .null then (colNameAt col_names vi, pyStrOfNat rowid)
  else (colNameAt col_names vi, displayValue v)

/-- The row-dictionary built per cell, shared verbatim by search
(row_values, lines 563-578) and recover_all_records (values_dict,
lines 717-731). -/
def buildValuesDict (col_names : List String) (pk_idx : Int) (rowid : Nat)
    (values : List Value) : List (String × PyStr) :=
  values.enum.foldl
    (fun d p => dictInsert d (rowEntry col_names pk_idx rowid p.1 p.2).1
      (rowEntry col_names pk_idx rowid p.1 p.2).2) []

theorem foldl_dictInsert_keyNotIn (col_names : List String) (pk_idx : Int) (rowid : Nat)
    (k : String) :
    ∀ (es : List (Nat × Value)) (d : List (String × PyStr)),
      (∀ p ∈ es, (rowEntry col_names pk_idx rowid p.1 p.2).1 ≠ k) →
      dictGet (es.foldl
        (fun d p => dictInsert d (rowEntry col_names pk_idx rowid p.1 p.2).1
          (rowEntry col_names pk_idx rowid p.1 p.2).2) d) k = dictGet d k := by
  intro es
  induction es with
  | nil => intro d _; rfl
  | cons e es ih =>
    intro d hk
    rw [List.foldl_cons, ih _ (fun p hp => hk p (List.mem_cons_of_mem e hp))]
    exact dictGet_dictInsert_other _ _ _ _ (hk e (List.mem_cons_self e es))

theorem buildValuesDict_pk_core (col_names : List String) (rowid : Nat) (pkn : Nat) :
    ∀ (values : List Value) (n : Nat) (d : List (String × PyStr)),
      n ≤ pkn → pkn < n + values.length →
      values.getD (pkn - n) .null = .null →
      (∀ j, pkn < j → j < n + values.length → colNameAt col_names j ≠ colNameAt col_names pkn) →
      dictGet ((values.enumFrom n).foldl
        (fun d p => dictInsert d (rowEntry col_names (pkn : Int) rowid p.1 p.2).1
          (rowEntry col_names (pkn : Int) rowid p.1 p.2).2) d)
        (colNameAt col_names pkn) = some (pyStrOfNat rowid) := by
  intro values
  induction values with
  | nil => intro n d h1 h2; simp at h2; omega
  | cons v vs ih =>
    intro n d h1 h2 hnull hkeys
    rw [List.enumFrom_cons, List.foldl_cons]
    rcases Nat.eq_or_lt_of_le h1 with heq | hlt
    · subst heq
      have hv : v = .null := by simpa using hnull
      have hentry : rowEntry col_names (n : Int) rowid n v =
          (colNameAt col_names n, pyStrOfNat rowid) := by
        rw [rowEntry, if_pos ⟨rfl, hv⟩]
      rw [foldl_dictInsert_keyNotIn]
      · rw [hentry]
        exact dictGet_dictInsert_same _ _ _
      · intro p hp
        obtain ⟨i, x⟩ := p
        obtain ⟨ha, hb, _⟩ := List.mem_enumFrom hp
        have hkey : (rowEntry col_names (n : Int) rowid i x).1 = colNameAt col_names i := by
          rw [rowEntry]
          split <;> rfl
        rw [hkey]
        exact hkeys i (by omega) (by simp only [List.length_cons]; omega)
    · have hnull' : vs.getD (pkn - (n + 1)) .null = .null := by
        have hsub : pkn - n = (pkn - (n + 1)) + 1 := by omega
        rw [hsub] at hnull
        simpa using hnull
      exact ih (n + 1) _ (by omega) (by simp at h2 ⊢; omega) hnull'
        (fun j hj1 hj2 => hkeys j hj1 (by simp at hj2 ⊢; omega))

/-- INTEGER PRIMARY KEY substitution inside the shared row-dictionary
construction: when index pkn is the designated PK column, the decoded
value there is NULL, and no later column shares its effective name, the
built dictionary maps that column to str(rowid). -/
theorem buildValuesDict_pk (col_names : List String) (rowid : Nat) (pkn : Nat)
    (values : List Value)
    (hlen : pkn < values.length)
    (hnull : values.getD pkn .null = .null)
    (hkeys : ∀ j, pkn < j → j < values.length →
      colNameAt col_names j ≠ colNameAt col_names pkn) :
    dictGet (buildValuesDict col_names (pkn : Int) rowid values)
      (colNameAt col_names pkn) = some (pyStrOfNat rowid) := by
  rw [buildValuesDict, List.enum]
  exact buildValuesDict_pk_core col_names rowid pkn values 0 []
    (by omega) (by omega) (by simpa using hnull)
    (fun j h1 h2 => hkeys j h1 (by omega))

-- ── recover_all_records ──────────────────────────────────────────────────

/-- One dict yielded by WALParser.recover_all_records. -/
structure RecoveredRecord where
  table : String
  rowid : Nat
  values_dict : List (String × PyStr)
  raw_values : List Value
  frame_idx : Nat
  page_num : Nat
  category : String
  deriving Repr, DecidableEq, Inhabited

/-- The sqlite_master shape heuristic of recover_all_records
(lines 701-709): first cell has at least five columns, the first a type
string, the fifth SQL text starting with CREATE. -/
def isSchemaCells : List Cell → Bool
  | [] => false
  | c :: _ =>
    decide (5 ≤ c.values.length) &&
    (match c.values.getD 0 .null with
     | .text t => decide (t = asBytes "table" ∨ t = asBytes "index" ∨
         t = asBytes "view" ∨ t = asBytes "trigger")
     | _ => false) &&
    (match c.values.getD 4 .null with
     | .text t => startsWithB (asBytes "CREATE") (pyUpper (pyStrip t))
     | _ => false)

/-- The record yielded per cell by recover_all_records. -/
def recoverCell (frame : WALFrame) (table_name : String) (col_names : List String)
    (pk_idx : Int) (cell : Cell) : RecoveredRecord :=
  { table := table_name, rowid := cell.rowid,
    values_dict := buildValuesDict col_names pk_idx cell.rowid cell.values,
    raw_values := cell.values, frame_idx := frame.index,
    page_num := frame.page_num, category := frame.category }

/-- The truthy-filter mismatch test: a present filter skips items of a
different name, an absent filter (None) skips nothing. -/
def filterMismatch (filter : Option String) (x : String) : Bool :=
  match filter with
  | some f => x ≠ f
  | none => false

/-- The records recover_all_records yields for one frame (one iteration of
its frame loop; continue becomes the empty contribution).  The filters are
Options since the callers pass None or a non-empty string.  The cancel
callback is omitted: it only aborts the generator early.  -/
def recoverFrame (st : WALParserState) (table_filter category_filter : Option String)
    (include_schema : Bool) (frame : WALFrame) : List RecoveredRecord :=
  if frame.page_type_byte ≠ 0x0D then []
  else if filterMismatch category_filter frame.category then []
  else
    let table_name := (st.page_map frame.page_num).getD ("page_" ++ toString frame.page_num)
    if ¬ include_schema ∧ (table_name = "sqlite_master" ∨ table_name = "sqlite_sequence" ∨
        frame.page_num = 1) then []
    else if filterMismatch table_filter table_name then []
    else
      let cells := parse_leaf_cells (get_page_data st (frame.index : Int))
      let col_names := st.col_map table_name
      let pk_idx := st.pk_col_idx table_name
      if ¬ include_schema ∧ cells ≠ [] ∧ isSchemaCells cells then []
      else cells.map (recoverCell frame table_name col_names pk_idx)

/-- WALParser.recover_all_records as the list of yields in order. -/
def recover_all_records (st : WALParserState) (table_filter category_filter : Option String)
    (include_schema : Bool) : List RecoveredRecord :=
  if ¬ st.valid then []
  else st.frames.flatMap (recoverFrame st table_filter category_filter include_schema)

-- ── search ───────────────────────────────────────────────────────────────

/-- One dict yielded by WALParser.search (the source's type key is called
dtype here). -/
structure SearchResult where
  table : String
  column : String
  rowid : Nat
  value : PyStr
  dtype : String
  source : String
  frame_idx : Nat
  page_num : Nat
  category : String
  row_data : List (String × PyStr)
  deriving Repr, DecidableEq, Inhabited

/-- Python str(val) on a decoded value as used for search matching. -/
def pyStrOfValue : Value → PyStr
  | .null => asBytes "None"
  | .intv i => pyStrOfInt i
  | .real bs => floatDisplay bs
  | .blob bs => blobDisplay bs
  | .text bs => bs

/-- The type string attached to a search result. -/
def dtypeOf : Value → String
  | .text _ => "text"
  | .intv _ => "integer"
  | .real _ => "real"
  | _ => "text"

/-- Search-display truncation to 500 characters. -/
def truncate500 (s : PyStr) : PyStr :=
  if s.length ≤ 500 then s else s.take 500 ++ asBytes "..."

/-- The Saved / Unsaved / Overwritten labels of search results. -/
def categoryLabel (c : String) : String :=
  if c = "committed" then "Saved"
  else if c = "uncommitted" then "Unsaved"
  else if c = "old" then "Overwritten"
  else c

def sourceLabel (c : String) : String := "WAL (" ++ categoryLabel c ++ ")"

/-- The matched test of the search loop, by mode name; the compiled regex
(an external library object) is passed in as a predicate. -/
def matchValue (term : PyStr) (mode : String) (rx : Option (PyStr → Bool)) (s : PyStr) : Bool :=
  if mode = "Case-Insensitive" then containsB (pyLower term) (pyLower s)
  else if mode = "Case-Sensitive" then containsB term s
  else if mode = "Exact Match" then s == term
  else if mode = "Starts With" then startsWithB (pyLower term) (pyLower s)
  else if mode = "Ends With" then endsWithB (pyLower term) (pyLower s)
  else if mode = "Regex" then (rx.getD (fun _ => false)) s
  else containsB (pyLower term) (pyLower s)

/-- The results search yields for one cell: one per matching column. -/
def searchCellResults (term : PyStr) (mode : String) (rx : Option (PyStr → Bool))
    (table_name : String) (col_names : List String) (pk_idx : Int)
    (frame : WALFrame) (cell : Cell) : List SearchResult :=
  let row_values := buildValuesDict col_names pk_idx cell.rowid cell.values
  cell.values.enum.flatMap (fun p =>
    let val := if (p.1 : Int) = pk_idx ∧ p.2 = .null then Value.intv (cell.rowid : Int) else p.2
    match val with
    | .null => []
    | .blob _ => []
    | _ =>
      let s := pyStrOfValue val
      if matchValue term mode rx s then
        [{ table := table_name, column := colNameAt col_names p.1, rowid := cell.rowid,
           value := truncate500 s, dtype := dtypeOf val,
           source := sourceLabel frame.category, frame_idx := frame.index,
           page_num := frame.page_num, category := frame.category,
           row_data := row_values }]
      else [])

/-- The results search yields for one frame. -/
def searchFrame (st : WALParserState) (term : PyStr) (mode : String)
    (rx : Option (PyStr → Bool)) (frame : WALFrame) : List SearchResult :=
  if frame.page_type_byte ≠ 0x0D then []
  else if frame.page_num = 1 then []
  else
    let cells := parse_leaf_cells (get_page_data st (frame.index : Int))
    let table_name := (st.page_map frame.page_num).getD ("page_" ++ toString frame.page_num)
    if table_name = "sqlite_master" ∨ table_name = "sqlite_sequence" then []
    else
      let col_names := st.col_map table_name
      let pk_idx := st.pk_col_idx table_name
      cells.flatMap (searchCellResults term mode rx table_name col_names pk_idx frame)

/-- WALParser.search as the list of yields in order.  The limit counter
that stops the generator after limit yields becomes a take; re.compile is
the external rxCompile parameter (None models re.error); the cancel
callback is omitted (it only aborts early). -/
def search (st : WALParserState) (term : PyStr) (mode : String) (limit : Nat)
    (rxCompile : PyStr → Option (PyStr → Bool)) : List SearchResult :=
  if ¬ st.valid ∨ term = [] then []
  else
    let rx := if mode = "Regex" then rxCompile term else none
    if mode = "Regex" ∧ rx.isNone then []
    else (st.frames.flatMap (searchFrame st term mode rx)).take limit

-- ── header parsing and open ──────────────────────────────────────────────

/-- The state after close(): everything released, valid False.  The
page/column/primary-key maps are kept outside close() by the source (they
are populated externally); the closed model resets them to empty since no
claim depends on their survival. -/
def closedState : WALParserState :=
  { mm := [], header := none, frames := [], page_size := 0, valid := false,
    file_size := 0, big_endian := true, page_map := fun _ => none,
    col_map := fun _ => [], pk_col_idx := fun _ => -1 }

/-- WALParser._parse_header: magic is read big-endian; the two accepted
constants choose the byte order for everything else; any other magic (or a
short file) leaves the parser invalid (None). -/
def parse_header (mm : List Nat) : Option (WALHeader × Bool) :=
  if mm.length < WAL_HEADER_SIZE then none
  else
    let magic := readU32 true mm 0
    if magic ≠ WAL_MAGIC_BE ∧ magic ≠ WAL_MAGIC_LE then none
    else
      let be := magic = WAL_MAGIC_BE
      some ({ magic := magic,
              version := readU32 be mm 4,
              page_size := readU32 be mm 8,
              checkpoint_seq := readU32 be mm 12,
              salt1 := readU32 be mm 16,
              salt2 := readU32 be mm 20,
              checksum1 := readU32 be mm 24,
              checksum2 := readU32 be mm 28 }, be)

/-- WALParser.open_wal_file on the mapped bytes: too-small files and
invalid headers leave the closed state; otherwise the header and all
frames are parsed.  File-system access and mmap are outside the model;
the page/column/primary-key maps start empty (populated externally). -/
def open_wal_file (mm : List Nat) : WALParserState :=
  if mm.length < WAL_HEADER_SIZE then closedState
  else
    match parse_header mm with
    | none => closedState
    | some (hdr, be) =>
      { mm := mm, header := some hdr,
        frames := parse_frames mm hdr.page_size be hdr.salt1 hdr.salt2,
        page_size := hdr.page_size, valid := true, file_size := mm.length,
        big_endian := be, page_map := fun _ => none,
        col_map := fun _ => [], pk_col_idx := fun _ => -1 }

-- ── summary ──────────────────────────────────────────────────────────────

/-- Python d[k] = d.get(k, 0) + 1. -/
def dictIncr {α : Type} [DecidableEq α] (d : List (α × Nat)) (k : α) : List (α × Nat) :=
  dictInsert d k ((dictGet d k).getD 0 + 1)

/-- Python set.add on an insertion-ordered list model of a set. -/
def setAdd (s : List Nat) (x : Nat) : List Nat := if x ∈ s then s else s ++ [x]

/-- The summary dict of WALParser.summary (None models the empty dict
returned for an invalid parser). -/
structure WALSummary where
  total_frames : Nat
  committed : Nat
  uncommitted : Nat
  old : Nat
  unique_pages : Nat
  page_types : List (String × Nat)
  wal_size : Nat
  page_size : Nat
  checkpoint_seq : Nat
  header_salt1 : Nat
  header_salt2 : Nat
  deriving Repr, DecidableEq, Inhabited

/-- The per-frame accumulation step of summary: category counts, page-type
counts and the set of distinct page numbers. -/
def summaryStep (acc : List (String × Nat) × List (String × Nat) × List Nat)
    (f : WALFrame) : List (String × Nat) × List (String × Nat) × List Nat :=
  (dictIncr acc.1 f.category, dictIncr acc.2.1 f.page_type, setAdd acc.2.2 f.page_num)

/-- WALParser.summary. -/
def summary (st : WALParserState) : Option WALSummary :=
  if ¬ st.valid then none
  else
    let r := st.frames.foldl summaryStep
      ([("committed", 0), ("uncommitted", 0), ("old", 0)], [], [])
    some { total_frames := st.frames.length,
           committed := (dictGet r.1 "committed").getD 0,
           uncommitted := (dictGet r.1 "uncommitted").getD 0,
           old := (dictGet r.1 "old").getD 0,
           unique_pages := r.2.2.length,
           page_types := r.2.1,
           wal_size := st.file_size,
           page_size := st.page_size,
           checkpoint_seq := (st.header.map WALHeader.checkpoint_seq).getD 0,
           header_salt1 := (st.header.map WALHeader.salt1).getD 0,
           header_salt2 := (st.header.map WALHeader.salt2).getD 0 }

-- ── table_stats ──────────────────────────────────────────────────────────

/-- One per-table statistics dict of WALParser.table_stats. -/
structure TableStat where
  total_records : Nat
  committed : Nat
  uncommitted : Nat
  old : Nat
  frames : Nat
  pages : List Nat
  is_wal_only : Bool
  deriving Repr, DecidableEq, Inhabited

def emptyTableStat : TableStat :=
  { total_records := 0, committed := 0, uncommitted := 0, old := 0,
    frames := 0, pages := [], is_wal_only := false }

/-- The s category += cell_count update (a KeyError on an unknown category
would be swallowed by the surrounding try, leaving the stat unchanged). -/
def addCategory (s : TableStat) (cat : String) (n : Nat) : TableStat :=
  if cat = "committed" then { s with committed := s.committed + n }
  else if cat = "uncommitted" then { s with uncommitted := s.uncommitted + n }
  else if cat = "old" then { s with old := s.old + n }
  else s

/-- WALParser.table_stats. -/
def table_stats (st : WALParserState) : List (String × TableStat) :=
  if ¬ st.valid then []
  else
    st.frames.foldl (fun stats frame =>
      if frame.page_type_byte ≠ 0x0D then stats
      else
        match st.page_map frame.page_num with
        | none => stats
        | some table_name =>
          if table_name = "sqlite_master" ∨ table_name = "sqlite_sequence" ∨
              frame.page_num = 1 then stats
          else
            let s0 := (dictGet stats table_name).getD emptyTableStat
            let s1 := { s0 with frames := s0.frames + 1,
                                pages := setAdd s0.pages frame.page_num }
            let page_data := get_page_data st (frame.index : Int)
            let s2 :=
              if page_data ≠ [] ∧ 5 ≤ page_data.length then
                let cell_count := readU16BE page_data 3
                addCategory { s1 with total_records := s1.total_records + cell_count }
                  frame.category cell_count
              else s1
            dictInsert stats table_name s2) []

-- ── C9: schema-shaped pages are skipped ──────────────────────────────────

/-- C9: a table-leaf frame whose first decoded cell has five or more
columns, the first being one of the strings table, index, view or trigger
and the fifth a string starting with CREATE (after stripping leading
whitespace, case-insensitively), is treated as a sqlite_master-shaped
schema page when schema records are excluded (the default), and none of
its records are yielded by recover_all_records, regardless of what the
page map says about the page. -/
theorem schema_page_not_yielded (st : WALParserState) (tf cf : Option String)
    (frame : WALFrame) (c0 : Cell) (t0 t4 : PyStr)
    (hleaf : frame.page_type_byte = 0x0D)
    (hhead : (parse_leaf_cells (get_page_data st (frame.index : Int))).head? = some c0)
    (hlen : 5 ≤ c0.values.length)
    (h0 : c0.values.getD 0 .null = .text t0)
    (ht0 : t0 = asBytes "table" ∨ t0 = asBytes "index" ∨ t0 = asBytes "view" ∨
      t0 = asBytes "trigger")
    (h4 : c0.values.getD 4 .null = .text t4)
    (hcreate : startsWithB (asBytes "CREATE") (pyUpper (pyStrip t4)) = true) :
    recoverFrame st tf cf false frame = [] := by
  have hschema : isSchemaCells (parse_leaf_cells (get_page_data st (frame.index : Int))) = true := by
    cases hc : parse_leaf_cells (get_page_data st (frame.index : Int)) with
    | nil => rw [hc] at hhead; simp at hhead
    | cons c rest =>
      rw [hc] at hhead
      have hcc : c = c0 := by simpa using hhead
      subst hcc
      simp only [isSchemaCells, h0, h4, Bool.and_eq_true, decide_eq_true_eq]
      exact ⟨⟨hlen, ht0⟩, hcreate⟩
  have hne : parse_leaf_cells (get_page_data st (frame.index : Int)) ≠ [] := by
    intro hnil
    rw [hnil] at hschema
    simp [isSchemaCells] at hschema
  rw [recoverFrame]
  dsimp only
  split_ifs with h1 h2 h3 h4' h5 <;> try rfl
  exact absurd ⟨by simp, hne, hschema⟩ h5

/-- A 48-byte table-leaf page whose single cell is shaped like a
sqlite_master row: values (table, x, x, 2, CREATE TABLE x), rowid 1. -/
def schemaDemoPage : List Nat :=
  [13, 0, 0, 0, 1, 0, 0, 0, 0, 12, 0, 0,
   28, 1, 6, 23, 15, 15, 1, 41,
   116, 97, 98, 108, 101, 120, 120, 2,
   67, 82, 69, 65, 84, 69, 32, 84, 65, 66, 76, 69, 32, 120] ++ List.replicate 6 0

/-- A parser state holding schemaDemoPage in one frame whose page number
the page map misattributes to a user table. -/
def schemaDemoState : WALParserState :=
  { mm := List.replicate 24 0 ++ schemaDemoPage, header := none,
    frames := [{ index := 0, offset := 0, page_num := 3, commit_size := 0,
                 salt1 := 0, salt2 := 0, checksum1 := 0, checksum2 := 0,
                 category := "old", page_type := "Table Leaf", page_type_byte := 0x0D }],
    page_size := 48, valid := true, file_size := 72, big_endian := true,
    page_map := fun n => if n = 3 then some "users" else none,
    col_map := fun _ => [], pk_col_idx := fun _ => -1 }

/-- Witness for schema_page_not_yielded: the concrete schema-shaped demo
page contributes no records. -/
theorem schema_page_not_yielded_witness :
    recoverFrame schemaDemoState none none false
      { index := 0, offset := 0, page_num := 3, commit_size := 0,
        salt1 := 0, salt2 := 0, checksum1 := 0, checksum2 := 0,
        category := "old", page_type := "Table Leaf", page_type_byte := 0x0D } = [] := by
  apply schema_page_not_yielded schemaDemoState none none _
    { rowid := 1, values := [.text (asBytes "table"), .text (asBytes "x"),
        .text (asBytes "x"), .intv 2, .text (asBytes "CREATE TABLE x")] }
    (asBytes "table") (asBytes "CREATE TABLE x") rfl (by decide) (by decide)
    (by decide) (by decide) (by decide) (by decide)

-- ── C7: INTEGER PRIMARY KEY substitution ─────────────────────────────────

theorem searchCellResults_fields (term : PyStr) (mode : String)
    (rx : Option (PyStr → Bool)) (tn : String) (cols : List String) (pk : Int)
    (frame : WALFrame) (cell : Cell) :
    ∀ x ∈ searchCellResults term mode rx tn cols pk frame cell,
      x.table = tn ∧ x.rowid = cell.rowid ∧
      x.row_data = buildValuesDict cols pk cell.rowid cell.values := by
  intro x hx
  rw [searchCellResults] at hx
  dsimp only at hx
  obtain ⟨p, hp, hxp⟩ := List.mem_flatMap.1 hx
  repeat' split at hxp
  all_goals
    first
      | exact absurd hxp (List.not_mem_nil x)
      | (rw [List.mem_singleton] at hxp
         subst hxp
         exact ⟨rfl, rfl, rfl⟩)

/-- C7: every record yielded by recover_all_records or search substitutes
the cell's rowid for a NULL decoded value in the table's designated
INTEGER PRIMARY KEY column: the yielded column-to-value mapping gives that
column str(rowid), not NULL.  (The column-name hypothesis rules out a
later column sharing the PK column's effective name, which cannot happen
for names coming from PRAGMA table_info.) -/
theorem pk_substitution (st : WALParserState) :
    (∀ tf cf inc r, r ∈ recover_all_records st tf cf inc →
      ∀ pkn : Nat, st.pk_col_idx r.table = (pkn : Int) →
        pkn < r.raw_values.length →
        r.raw_values.getD pkn .null = .null →
        (∀ j, pkn < j → j < r.raw_values.length →
          colNameAt (st.col_map r.table) j ≠ colNameAt (st.col_map r.table) pkn) →
        dictGet r.values_dict (colNameAt (st.col_map r.table) pkn) =
          some (pyStrOfNat r.rowid)) ∧
    (∀ term mode limit rxc r, r ∈ search st term mode limit rxc →
      ∃ cell : Cell, r.rowid = cell.rowid ∧
        r.row_data = buildValuesDict (st.col_map r.table) (st.pk_col_idx r.table)
          cell.rowid cell.values ∧
        (∀ pkn : Nat, st.pk_col_idx r.table = (pkn : Int) →
          pkn < cell.values.length →
          cell.values.getD pkn .null = .null →
          (∀ j, pkn < j → j < cell.values.length →
            colNameAt (st.col_map r.table) j ≠ colNameAt (st.col_map r.table) pkn) →
          dictGet r.row_data (colNameAt (st.col_map r.table) pkn) =
            some (pyStrOfNat cell.rowid))) := by
  constructor
  · intro tf cf inc r hr pkn hpk hlen hnull hkeys
    rw [recover_all_records] at hr
    split at hr
    · exact absurd hr (List.not_mem_nil r)
    · obtain ⟨frame, hfr, hrf⟩ := List.mem_flatMap.1 hr
      rw [recoverFrame] at hrf
      dsimp only at hrf
      split_ifs at hrf with h1 h2 h3 h4' h5
      · exact absurd hrf (List.not_mem_nil r)
      · exact absurd hrf (List.not_mem_nil r)
      · exact absurd hrf (List.not_mem_nil r)
      · exact absurd hrf (List.not_mem_nil r)
      · exact absurd hrf (List.not_mem_nil r)
      · obtain ⟨cell, hcell, hre⟩ := List.mem_map.1 hrf
        subst hre
        simp only [recoverCell] at hpk hlen hnull hkeys ⊢
        rw [hpk]
        exact buildValuesDict_pk _ _ _ _ hlen hnull hkeys
  · intro term mode limit rxc r hr
    rw [search] at hr
    by_cases hv : (¬ st.valid = true ∨ term = [])
    · rw [if_pos hv] at hr
      exact absurd hr (List.not_mem_nil r)
    · rw [if_neg hv] at hr
      dsimp only at hr
      by_cases hrx : (mode = "Regex" ∧
          (if mode = "Regex" then rxc term else none).isNone = true)
      · rw [if_pos hrx] at hr
        exact absurd hr (List.not_mem_nil r)
      · rw [if_neg hrx] at hr
        generalize (if mode = "Regex" then rxc term else none) = rx0 at hr
        have hr2 := List.take_subset limit _ hr
        obtain ⟨frame, hfr, hrf⟩ := List.mem_flatMap.1 hr2
        rw [searchFrame] at hrf
        dsimp only at hrf
        split_ifs at hrf with h1 h2 h3
        · exact absurd hrf (List.not_mem_nil r)
        · exact absurd hrf (List.not_mem_nil r)
        · exact absurd hrf (List.not_mem_nil r)
        · obtain ⟨cell, hcell, hrc⟩ := List.mem_flatMap.1 hrf
          obtain ⟨htab, hrow, hdata⟩ := searchCellResults_fields _ _ _ _ _ _ _ _ r hrc
          refine ⟨cell, hrow, ?_, ?_⟩
          · rw [hdata, htab]
          · intro pkn hpk hlen hnull hkeys
            rw [htab] at hpk hkeys
            rw [hdata, htab, hpk]
            exact buildValuesDict_pk _ _ _ _ hlen hnull hkeys

/-- A parser state holding demoLeafPage attributed to a two-column table
whose first column is the INTEGER PRIMARY KEY. -/
def pkDemoState : WALParserState :=
  { mm := List.replicate 24 0 ++ demoLeafPage, header := none,
    frames := [{ index := 0, offset := 0, page_num := 2, commit_size := 1,
                 salt1 := 0, salt2 := 0, checksum1 := 0, checksum2 := 0,
                 category := "committed", page_type := "Table Leaf",
                 page_type_byte := 0x0D }],
    page_size := 40, valid := true, file_size := 64, big_endian := true,
    page_map := fun n => if n = 2 then some "t" else none,
    col_map := fun s => if s = "t" then ["id", "name"] else [],
    pk_col_idx := fun s => if s = "t" then 0 else -1 }

/-- The record recover_all_records yields for pkDemoState. -/
def pkDemoRecord : RecoveredRecord :=
  { table := "t", rowid := 7,
    values_dict := buildValuesDict ["id", "name"] 0 7 [.null, .text [97, 98, 99]],
    raw_values := [.null, .text [97, 98, 99]], frame_idx := 0, page_num := 2,
    category := "committed" }

/-- Witness for pk_substitution: on the concrete demo leaf cell whose
first column decodes NULL, the yielded dictionary maps the id column (the
INTEGER PRIMARY KEY) to str(7), the rowid. -/
theorem pk_substitution_witness :
    dictGet pkDemoRecord.values_dict (colNameAt (pkDemoState.col_map pkDemoRecord.table) 0) =
      some (pyStrOfNat pkDemoRecord.rowid) := by
  apply (pk_substitution pkDemoState).1 none none false pkDemoRecord
    (by decide) 0 (by decide) (by decide) (by decide)
  intro j h1 h2
  have hj : j = 1 := by
    have : pkDemoRecord.raw_values.length = 2 := by decide
    omega
  subst hj
  decide

-- ── C8: invalid magic is the no-WAL state ────────────────────────────────

theorem queries_empty_of_invalid (st : WALParserState) (hv : st.valid = false) :
    (∀ term mode limit rxc, search st term mode limit rxc = []) ∧
    (∀ tf cf inc, recover_all_records st tf cf inc = []) ∧
    summary st = none ∧ table_stats st = [] := by
  refine ⟨?_, ?_, ?_, ?_⟩
  · intro term mode limit rxc
    rw [search, if_pos (Or.inl (by simp [hv]))]
  · intro tf cf inc
    rw [recover_all_records, if_pos (by simp [hv])]
  · rw [summary, if_pos (by simp [hv])]
  · rw [table_stats, if_pos (by simp [hv])]

/-- C8: when the first four bytes, read big-endian, equal neither WAL
magic constant, header parsing reports no WAL (None), the opened parser is
invalid (the normal no-WAL state, not an error), and every query (search,
recover_all_records, summary, table_stats) returns an empty result. -/
theorem invalid_magic_no_wal (mm : List Nat)
    (h1 : readU32 true mm 0 ≠ WAL_MAGIC_BE) (h2 : readU32 true mm 0 ≠ WAL_MAGIC_LE) :
    parse_header mm = none ∧
    (open_wal_file mm).valid = false ∧
    (∀ term mode limit rxc, search (open_wal_file mm) term mode limit rxc = []) ∧
    (∀ tf cf inc, recover_all_records (open_wal_file mm) tf cf inc = []) ∧
    summary (open_wal_file mm) = none ∧
    table_stats (open_wal_file mm) = [] := by
  have hph : parse_header mm = none := by
    rw [parse_header]
    by_cases hl : mm.length < WAL_HEADER_SIZE
    · rw [if_pos hl]
    · rw [if_neg hl]
      dsimp only
      rw [if_pos ⟨h1, h2⟩]
  have hopen : open_wal_file mm = closedState := by
    rw [open_wal_file]
    by_cases hl : mm.length < WAL_HEADER_SIZE
    · rw [if_pos hl]
    · rw [if_neg hl, hph]
  have hv : (open_wal_file mm).valid = false := by rw [hopen]; rfl
  obtain ⟨hs, hr, hsum, hts⟩ := queries_empty_of_invalid _ hv
  exact ⟨hph, hv, hs, hr, hsum, hts⟩

/-- Witness for invalid_magic_no_wal: the empty file has magic 0, which is
neither constant, and all queries are empty. -/
theorem invalid_magic_no_wal_witness :
    parse_header [] = none ∧ (open_wal_file []).valid = false ∧
    summary (open_wal_file []) = none ∧ table_stats (open_wal_file []) = [] ∧
    search (open_wal_file []) (asBytes "x") "Exact Match" 5 (fun _ => none) = [] ∧
    recover_all_records (open_wal_file []) none none false = [] := by
  have h := invalid_magic_no_wal [] (by decide) (by decide)
  exact ⟨h.1, h.2.1, h.2.2.2.2.1, h.2.2.2.2.2, h.2.2.1 _ _ _ _, h.2.2.2.1 _ _ _⟩

-- ── C10: summary counts partition the frames ─────────────────────────────

theorem classifyFrame_mem (hs1 hs2 s1 s2 cs : Nat) :
    classifyFrame hs1 hs2 s1 s2 cs = "committed" ∨
    classifyFrame hs1 hs2 s1 s2 cs = "uncommitted" ∨
    classifyFrame hs1 hs2 s1 s2 cs = "old" := by
  rw [classifyFrame]
  split_ifs <;> simp

theorem parse_frames_category_mem (mm : List Nat) (ps : Nat) (be : Bool) (hs1 hs2 : Nat) :
    ∀ f ∈ parse_frames mm ps be hs1 hs2,
      f.category = "committed" ∨ f.category = "uncommitted" ∨ f.category = "old" := by
  intro f hf
  rw [parse_frames_eq] at hf
  obtain ⟨i, _, hfe⟩ := List.mem_map.1 hf
  rw [← hfe, (frameAt_fields mm be hs1 hs2 _ i).1]
  exact classifyFrame_mem _ _ _ _ _

theorem dictIncr_cats_committed (a b c : Nat) :
    dictIncr [("committed", a), ("uncommitted", b), ("old", c)] "committed" =
      [("committed", a + 1), ("uncommitted", b), ("old", c)] := rfl

theorem dictIncr_cats_uncommitted (a b c : Nat) :
    dictIncr [("committed", a), ("uncommitted", b), ("old", c)] "uncommitted" =
      [("committed", a), ("uncommitted", b + 1), ("old", c)] := rfl

theorem dictIncr_cats_old (a b c : Nat) :
    dictIncr [("committed", a), ("uncommitted", b), ("old", c)] "old" =
      [("committed", a), ("uncommitted", b), ("old", c + 1)] := rfl

theorem summary_fold_cats :
    ∀ (frames : List WALFrame) (a b c : Nat) (pts : List (String × Nat)) (ups : List Nat),
      (∀ f ∈ frames, f.category = "committed" ∨ f.category = "uncommitted" ∨
        f.category = "old") →
      ∃ a' b' c' pts' ups',
        frames.foldl summaryStep ([("committed", a), ("uncommitted", b), ("old", c)], pts, ups) =
          ([("committed", a'), ("uncommitted", b'), ("old", c')], pts', ups') ∧
        a' + b' + c' = a + b + c + frames.length := by
  intro frames
  induction frames with
  | nil =>
    intro a b c pts ups _
    exact ⟨a, b, c, pts, ups, rfl, by simp⟩
  | cons f fs ih =>
    intro a b c pts ups hcat
    rw [List.foldl_cons]
    obtain ⟨a2, b2, c2, hstep, hs2⟩ :
        ∃ a2 b2 c2,
          summaryStep (([("committed", a), ("uncommitted", b), ("old", c)] :
              List (String × Nat)), pts, ups) f =
            ([("committed", a2), ("uncommitted", b2), ("old", c2)],
              dictIncr pts f.page_type, setAdd ups f.page_num) ∧
          a2 + b2 + c2 = a + b + c + 1 := by
      rcases hcat f (List.mem_cons_self f fs) with h | h | h
      · refine ⟨a + 1, b, c, ?_, by omega⟩
        simp only [summaryStep, h, dictIncr_cats_committed]
      · refine ⟨a, b + 1, c, ?_, by omega⟩
        simp only [summaryStep, h, dictIncr_cats_uncommitted]
      · refine ⟨a, b, c + 1, ?_, by omega⟩
        simp only [summaryStep, h, dictIncr_cats_old]
    rw [hstep]
    obtain ⟨a', b', c', pts', ups', hfold, hsum⟩ :=
      ih a2 b2 c2 _ _ (fun g hg => hcat g (List.mem_cons_of_mem f hg))
    exact ⟨a', b', c', pts', ups', hfold,
      by simp only [List.length_cons]; omega⟩

/-- C10: for every successfully opened and valid parser, summary reports
total_frames equal to the parsed frame count, and its committed,
uncommitted and old counts sum exactly to total_frames: every frame lands
in exactly one category bucket. -/
theorem summary_category_partition (mm : List Nat)
    (hv : (open_wal_file mm).valid = true) :
    (summary (open_wal_file mm)).isSome = true ∧
    ∀ s, summary (open_wal_file mm) = some s →
      s.total_frames = (open_wal_file mm).frames.length ∧
      s.committed + s.uncommitted + s.old = s.total_frames := by
  rw [open_wal_file] at hv ⊢
  by_cases hl : mm.length < WAL_HEADER_SIZE
  · rw [if_pos hl] at hv
    exact absurd hv (by simp [closedState])
  · rw [if_neg hl] at hv ⊢
    cases hph : parse_header mm with
    | none =>
      rw [hph] at hv
      exact absurd hv (by simp [closedState])
    | some pr =>
      obtain ⟨hdr, be⟩ := pr
      rw [hph] at hv
      dsimp only at hv ⊢
      have hcats := parse_frames_category_mem mm hdr.page_size be hdr.salt1 hdr.salt2
      obtain ⟨a', b', c', pts', ups', hfold, hsum⟩ :=
        summary_fold_cats (parse_frames mm hdr.page_size be hdr.salt1 hdr.salt2)
          0 0 0 [] [] hcats
      rw [summary]
      rw [if_neg (by simp)]
      dsimp only
      rw [hfold]
      dsimp only
      refine ⟨rfl, ?_⟩
      intro s hs
      have hse := Option.some.inj hs
      rw [← hse]
      refine ⟨rfl, ?_⟩
      have e1 : dictGet [("committed", a'), ("uncommitted", b'), ("old", c')] "committed" =
          some a' := rfl
      have e2 : dictGet [("committed", a'), ("uncommitted", b'), ("old", c')] "uncommitted" =
          some b' := rfl
      have e3 : dictGet [("committed", a'), ("uncommitted", b'), ("old", c')] "old" =
          some c' := rfl
      show (dictGet [("committed", a'), ("uncommitted", b'), ("old", c')] "committed").getD 0 +
          (dictGet [("committed", a'), ("uncommitted", b'), ("old", c')] "uncommitted").getD 0 +
          (dictGet [("committed", a'), ("uncommitted", b'), ("old", c')] "old").getD 0 =
          (parse_frames mm hdr.page_size be hdr.salt1 hdr.salt2).length
      rw [e1, e2, e3]
      simpa using hsum

/-- A minimal valid WAL file: the big-endian magic followed by 28 zero
header bytes (page size 0, no frames). -/
def walDemoFile : List Nat := [0x37, 0x7f, 0x06, 0x82] ++ List.replicate 28 0

/-- Witness for summary_category_partition: the minimal valid file opens
as a valid parser with a populated summary. -/
theorem summary_category_partition_witness :
    (summary (open_wal_file walDemoFile)).isSome = true :=
  (summary_category_partition walDemoFile (by decide)).1

/-- Witness for get_page_data_spec: a tiny valid one-frame state; index 0
is in range and returns the page bytes, index 5 is out of range. -/
theorem get_page_data_spec_witness :
    ((WALParserState.mk (List.replicate 30 7) none
        [{ index := 0, offset := 0, page_num := 2, commit_size := 0,
           salt1 := 0, salt2 := 0, checksum1 := 0, checksum2 := 0,
           category := "uncommitted", page_type := "Overflow / Free",
           page_type_byte := 0 }] 4 true 30 true
        (fun _ => none) (fun _ => []) (fun _ => -1)).valid = true) ∧
    (get_page_data (WALParserState.mk (List.replicate 30 7) none
        [{ index := 0, offset := 0, page_num := 2, commit_size := 0,
           salt1 := 0, salt2 := 0, checksum1 := 0, checksum2 := 0,
           category := "uncommitted", page_type := "Overflow / Free",
           page_type_byte := 0 }] 4 true 30 true
        (fun _ => none) (fun _ => []) (fun _ => -1)) 0).length = 4 ∧
    get_page_data (WALParserState.mk (List.replicate 30 7) none
        [{ index := 0, offset := 0, page_num := 2, commit_size := 0,
           salt1 := 0, salt2 := 0, checksum1 := 0, checksum2 := 0,
           category := "uncommitted", page_type := "Overflow / Free",
           page_type_byte := 0 }] 4 true 30 true
        (fun _ => none) (fun _ => []) (fun _ => -1)) 5 = [] := by
  refine ⟨rfl, ?_, ?_⟩
  · exact ((get_page_data_spec _ 0).2 rfl (by decide) (by decide) (by decide)).1
  · exact (get_page_data_spec _ 5).1 (Or.inr (Or.inr (Or.inl (by decide))))

end WalParser
